import Mathlib

/-!
# go-backend-framework: validator field names and validation error contexts

A shallow embedding of

* `internal/registrar/validator_registrar.go` (`ValidatorRegistrar.Register`,
  `ValidatorRegistrar.pickTagName`),
* `internal/http/response/validation.go` (`MakeValidationErrorContext`),

together with the pieces of the Go standard library they call (`strings.Split`,
`strings.TrimSpace`, `unicode.IsSpace`, `errors.As`, `reflect.StructTag.Get`).

Go strings are modelled as Lean strings, i.e. sequences of Unicode code points
(well-formed UTF-8).  A run-time panic is modelled by `none`.
-/

namespace GoBackend

/-! ## Go standard library: `unicode`, `strings` -/

/-- Go `unicode.IsSpace`: the Latin-1 spaces `\t \n \v \f \r`, space, U+0085, U+00A0,
and beyond Latin-1 the code points of the `White_Space` range table. -/
def isSpace (r : Char) : Bool :=
  if r.toNat ≤ 0xFF then
    r.toNat = 0x09 || r.toNat = 0x0A || r.toNat = 0x0B || r.toNat = 0x0C || r.toNat = 0x0D
      || r.toNat = 0x20 || r.toNat = 0x85 || r.toNat = 0xA0
  else
    r.toNat = 0x1680 || (0x2000 ≤ r.toNat && r.toNat ≤ 0x200A) || r.toNat = 0x2028
      || r.toNat = 0x2029 || r.toNat = 0x202F || r.toNat = 0x205F || r.toNat = 0x3000

/-- Go `strings.Count(s, sep)` for a one-character separator. -/
def Count (s : List Char) (sep : Char) : Nat :=
  s.count sep

/-- Go `strings.Index(s, sep)` for a one-character separator; `none` stands for `-1`. -/
def Index : List Char → Char → Option Nat
  | [], _ => none
  | c :: cs, sep => if c = sep then some 0 else (Index cs sep).map (· + 1)

/-- The loop of Go `strings.genSplit` (with `sepSave = 0` and a one-character separator):
`n` is the number of cuts still allowed; each round cuts `s` at the first separator, and
the rest of `s` becomes the last element. -/
def genSplitLoop : Nat → List Char → Char → List (List Char)
  | 0, s, _ => [s]
  | n + 1, s, sep =>
    match Index s sep with
    | none => [s]
    | some m => s.take m :: genSplitLoop n (s.drop (m + 1)) sep

/-- Go `strings.Split(s, sep)` for a one-character separator: `genSplit(s, sep, 0, -1)`,
which sets `n = Count(s, sep) + 1` and cuts `n - 1` times (the cap `n ≤ len(s) + 1` never
binds, a string having no more separators than characters). -/
def Split (s : List Char) (sep : Char) : List (List Char) :=
  genSplitLoop (Count s sep) s sep

/-- Go `strings.TrimSpace`: all leading and trailing white space (as `unicode.IsSpace`
defines it) removed. -/
def TrimSpace (s : List Char) : List Char :=
  ((s.dropWhile isSpace).reverse.dropWhile isSpace).reverse

/-! ## Go standard library: `reflect` -/

/-- Go `reflect.StructTag`, as the key/value pairs of a conventionally formatted tag
string, in the order they are written. -/
abbrev StructTag := List (String × String)

/-- Go `reflect.StructTag.Get`: the value of the first pair with the given key, and the
empty string when the tag has no such key. -/
def StructTag.Get (tag : StructTag) (key : String) : String :=
  match tag.find? (fun kv => kv.1 == key) with
  | some kv => kv.2
  | none => ""

/-- Go `reflect.StructField`, restricted to the two fields the registrar reads. -/
structure StructField where
  Name : String
  Tag : StructTag
deriving DecidableEq, Repr

/-! ## `internal/registrar/validator_registrar.go` -/

/-- The method `(*ValidatorRegistrar).pickTagName`.  `none` is the index-out-of-range panic of
`strings.Split(tagValue, ",")[0]`. -/
def pickTagName (tagValue : String) : Option String :=
  if tagValue = "" ∨ tagValue = "-" then
    some ""
  else
    match (Split tagValue.data ',')[0]? with
    | none => none
    | some name => some (String.mk (TrimSpace name))

/-- The function that `(*ValidatorRegistrar).Register` hands to
`engine.RegisterTagNameFunc`. -/
def tagNameFunc (field : StructField) : Option String :=
  match pickTagName (field.Tag.Get "json") with
  | none => none
  | some name =>
    if name ≠ "" then some name
    else
      match pickTagName (field.Tag.Get "form") with
      | none => none
      | some name => if name ≠ "" then some name else some field.Name

/-! ## `github.com/go-playground/validator/v10` and Go `errors` -/

/-- The two accessors of `validator.FieldError` that the response package reads:
`Field()`, the reported field name, and `Tag()`, the keyword of the failing rule. -/
structure FieldError where
  Field : String
  Tag : String
deriving DecidableEq, Repr

/-- The slice type `validator.ValidationErrors`. -/
abbrev ValidationErrors := List FieldError

/-- A non-nil Go `error` value, by what `errors.As` can see of it: a
`validator.ValidationErrors`, an error of any other concrete type without an `Unwrap`
method (a body decode error, say), a wrapper whose `Unwrap() error` returns a non-nil
error (`fmt.Errorf` with `%w`), or an `errors.Join`-style error whose `Unwrap() []error`
returns the listed non-nil errors.  Error types with an `As` method of their own are left
out. -/
inductive GoError where
  | other (msg : String)
  | validation (ve : ValidationErrors)
  | wrap (msg : String) (inner : GoError)
  | join (errs : List GoError)

mutual
/-- The loop of Go `errors.as` for the target type `validator.ValidationErrors`: the first
value of that type met in a depth-first walk of the error tree. -/
def errorsAsTree : GoError → Option ValidationErrors
  | .other _ => none
  | .validation ve => some ve
  | .wrap _ inner => errorsAsTree inner
  | .join errs => errorsAsList errs
/-- The `for _, err := range x.Unwrap()` branch of Go `errors.as`. -/
def errorsAsList : List GoError → Option ValidationErrors
  | [] => none
  | e :: es =>
    match errorsAsTree e with
    | some ve => some ve
    | none => errorsAsList es
end

/-- Go `errors.As(err, &ve)` with `ve` of type `validator.ValidationErrors`; a Go `error`
interface value is `none` when nil.  The result is the value stored in `ve` when `As`
returns true and `none` when it returns false. -/
def errorsAs (err : Option GoError) : Option ValidationErrors :=
  match err with
  | none => none
  | some e => errorsAsTree e

/-! ## Go maps -/

/-- A non-nil Go `map[string]any` whose values are strings: its entries, one per key. -/
structure GoMap where
  entries : List (String × String)
deriving DecidableEq, Repr

/-- Go `make(map[string]any, n)`: an empty, non-nil map. -/
def GoMap.make : GoMap := ⟨[]⟩

/-- The assignment `m[k] = v` on the entry list: overwrite the entry of `k` when there is
one, add an entry otherwise. -/
def setEntry (k v : String) : List (String × String) → List (String × String)
  | [] => [(k, v)]
  | e :: rest => if e.1 = k then (k, v) :: rest else e :: setEntry k v rest

/-- Go `m[k] = v`. -/
def GoMap.set (m : GoMap) (k v : String) : GoMap := ⟨setEntry k v m.entries⟩

/-- Go `v, ok := m[k]`. -/
def GoMap.get? (m : GoMap) (k : String) : Option String :=
  (m.entries.find? (fun e => e.1 == k)).map (·.2)

/-- Go `len(m)`. -/
def GoMap.len (m : GoMap) : Nat := m.entries.length

/-- The keys of a Go map. -/
def GoMap.keys (m : GoMap) : List String := m.entries.map (·.1)

/-! ## `internal/http/response/validation.go` -/

/-- The function `MakeValidationErrorContext`; a nil map is `none`. -/
def MakeValidationErrorContext (err : Option GoError) : Option GoMap :=
  match errorsAs err with
  | some ve => some (ve.foldl (fun out fe => out.set fe.Field fe.Tag) GoMap.make)
  | none => none

/-- An error is, or wraps, a `validator.ValidationErrors` value: it is one, or it unwraps
(singly or as one of several) to an error that is or wraps one. -/
inductive WrapsValidationErrors : GoError → Prop
  | self (ve : ValidationErrors) : WrapsValidationErrors (.validation ve)
  | wrap (msg : String) (inner : GoError) :
      WrapsValidationErrors inner → WrapsValidationErrors (.wrap msg inner)
  | join (errs : List GoError) (e : GoError) :
      e ∈ errs → WrapsValidationErrors e → WrapsValidationErrors (.join errs)

/-! ## The statements of the specification about field names -/

/-- The first comma-separated segment of a tag value, as the specification words it: what
stands before the first comma. -/
def firstSegment (tagValue : String) : List Char :=
  tagValue.data.takeWhile (fun c => c ≠ ',')

/-- The first comma-separated segment of a tag value, trimmed. -/
def trimmedSegment (tagValue : String) : String :=
  String.mk (TrimSpace (firstSegment tagValue))

/-- The reported field name as the specification words it: when a JSON name exists and is
not `-`, its first comma-separated segment trimmed; else the form name by the same rule;
else the structural name. -/
def specFieldName (j f n : String) : String :=
  if j ≠ "" ∧ j ≠ "-" then trimmedSegment j
  else if f ≠ "" ∧ f ≠ "-" then trimmedSegment f
  else n

/-- The reported field name as the specification words it, read the other way: the JSON
name is the trimmed first segment of the tag value, it exists when it is not empty, and it
is compared with `-`. -/
def specFieldNameOfSegment (j f n : String) : String :=
  if trimmedSegment j ≠ "" ∧ trimmedSegment j ≠ "-" then trimmedSegment j
  else if trimmedSegment f ≠ "" ∧ trimmedSegment f ≠ "-" then trimmedSegment f
  else n

/-- The reported field name as the registrar resolves it: a source is used when its tag
value is neither empty nor `-` and its trimmed first segment is not empty. -/
def resolvedFieldName (j f n : String) : String :=
  if j ≠ "" ∧ j ≠ "-" ∧ trimmedSegment j ≠ "" then trimmedSegment j
  else if f ≠ "" ∧ f ≠ "-" ∧ trimmedSegment f ≠ "" then trimmedSegment f
  else n

/-- A tag value that names nothing: it is empty, is `-`, or its first comma-separated
segment is empty or holds white space only. -/
def skippedTag (tagValue : String) : Prop :=
  tagValue = "" ∨ tagValue = "-" ∨ ∀ c ∈ firstSegment tagValue, isSpace c = true

/-- Go `encoding/json` `isValidTag`: a name is valid when it is not empty and each of its
characters is one of the listed punctuation characters, a letter or a digit.  The tables
`unicode.IsLetter` and `unicode.IsDigit` are parameters. -/
def isValidTag (isLetter isDigit : Char → Bool) (s : List Char) : Bool :=
  if s = [] then false
  else s.all (fun c =>
    "!#$%&()*+-./:;<=>?@[]^_\x7b|\x7d~ ".data.contains c || isLetter c || isDigit c)

/-- The JSON serialization name of an exported, not embedded field, as Go `encoding/json`
settles it (`typeFields`): a field tagged `json:"-"` is left out and has none; else the
name is what stands before the first comma of the json tag (`parseTag`) when that is a
valid name (`isValidTag`), and the Go field name otherwise. -/
def jsonSerializationName (isLetter isDigit : Char → Bool) (field : StructField) :
    Option String :=
  if field.Tag.Get "json" = "-" then none
  else if isValidTag isLetter isDigit (firstSegment (field.Tag.Get "json")) = true then
    some (String.mk (firstSegment (field.Tag.Get "json")))
  else some field.Name

/-! ## The request validator -/

/-- Modelled from the spec: the rule keywords of a declared schema (the `binding` tag of a
request struct, which is not among the sources): `required`, `email`, `gte` (length lower
bound), `containsany` (at least one character from a class), `eqfield` (equal to a sibling
field, named by its structural name). -/
inductive Rule where
  | required
  | email
  | gte (n : Nat)
  | containsany (chars : String)
  | eqfield (fieldName : String)
deriving DecidableEq, Repr

/-- Modelled from the spec: the stable external keyword of a rule, which a field error
reports as its tag. -/
def Rule.keyword : Rule → String
  | .required => "required"
  | .email => "email"
  | .gte _ => "gte"
  | .containsany _ => "containsany"
  | .eqfield _ => "eqfield"

/-- Modelled from the spec: a field of a decoded request body (the request structs are not
among the sources): the struct field with its tags, its declared rules in declaration
order, and the decoded string value. -/
structure BoundField where
  field : StructField
  rules : List Rule
  value : String
deriving DecidableEq, Repr

/-- Modelled from the spec: whether a value satisfies a rule.  The address syntax behind
`email` is a parameter. -/
def Rule.holds (isEmail : String → Bool) (body : List BoundField) (value : String) :
    Rule → Bool
  | .required => decide (value ≠ "")
  | .email => isEmail value
  | .gte n => decide (n ≤ value.length)
  | .containsany chars => value.data.any (fun c => chars.data.contains c)
  | .eqfield fieldName =>
    match body.find? (fun b => b.field.Name == fieldName) with
    | some b => decide (value = b.value)
    | none => false

/-- Modelled from the spec: the first failing rule of a field in declaration order. -/
def firstFailing (isEmail : String → Bool) (body : List BoundField) (b : BoundField) :
    Option Rule :=
  b.rules.find? (fun r => !(r.holds isEmail body b.value))

/-- Modelled from the spec: the field name a field error reports, which the validator
takes from the registered tag-name function, keeping the structural name when that
function returns the empty string. -/
def reportedName (field : StructField) : Option String :=
  match tagNameFunc field with
  | none => none
  | some name => if name ≠ "" then some name else some field.Name

/-- Modelled from the spec: the field errors of the fields `bs` of a body, in declaration
order, one per failing field, carrying the first failing rule. -/
def fieldErrors (isEmail : String → Bool) (body : List BoundField) :
    List BoundField → Option ValidationErrors
  | [] => some []
  | b :: bs =>
    match reportedName b.field, fieldErrors isEmail body bs with
    | some name, some rest =>
      match firstFailing isEmail body b with
      | some r => some (⟨name, r.keyword⟩ :: rest)
      | none => some rest
    | _, _ => none

/-- Modelled from the spec: validation of a decoded body; the inner result is the nil
error when every field passes, and the validation errors otherwise. -/
def validateStruct (isEmail : String → Bool) (body : List BoundField) :
    Option (Option GoError) :=
  match fieldErrors isEmail body body with
  | none => none
  | some [] => some none
  | some (fe :: rest) => some (some (GoError.validation (fe :: rest)))

/-- Modelled from the spec: the context of the error response to a body, `none` when the
body is accepted and no error response is made. -/
def validationContext (isEmail : String → Bool) (body : List BoundField) :
    Option (Option GoMap) :=
  match validateStruct isEmail body with
  | none => none
  | some none => none
  | some (some err) => some (MakeValidationErrorContext (some err))

/-- The field errors of a body in closed form: one entry per failing field, in declaration
order, under the name the registrar resolves. -/
def failingFields (isEmail : String → Bool) (body bs : List BoundField) : ValidationErrors :=
  bs.filterMap (fun b =>
    (firstFailing isEmail body b).map (fun r =>
      ⟨resolvedFieldName (b.field.Tag.Get "json") (b.field.Tag.Get "form") b.field.Name,
        r.keyword⟩))

/-- The reported name of a field is its JSON serialization name in two cases: the json tag
is not `-` and its name segment is a valid JSON name without surrounding white space; or
the json tag has no name segment and the form tag names nothing. -/
def reportsJsonName (isLetter isDigit : Char → Bool) (field : StructField) : Prop :=
  (field.Tag.Get "json" ≠ "-"
      ∧ isValidTag isLetter isDigit (firstSegment (field.Tag.Get "json")) = true
      ∧ TrimSpace (firstSegment (field.Tag.Get "json")) = firstSegment (field.Tag.Get "json"))
    ∨ (firstSegment (field.Tag.Get "json") = [] ∧ skippedTag (field.Tag.Get "form"))

/-- Modelled from the spec: the character class `<lowercase>`. -/
def lowercase : String := "abcdefghijklmnopqrstuvwxyz"

/-- Modelled from the spec: the character class `<uppercase>`. -/
def uppercase : String := "ABCDEFGHIJKLMNOPQRSTUVWXYZ"

/-- Modelled from the spec: the character class `<digits>`. -/
def digits : String := "0123456789"

/-- Modelled from the spec: the password rule set, `required`, `gte=8`,
`containsany=<lowercase>`, `containsany=<uppercase>`, `containsany=<digits>`. -/
def passwordRules : List Rule :=
  [.required, .gte 8, .containsany lowercase, .containsany uppercase, .containsany digits]

/-- Modelled from the spec: the registration body `{name, email, password}` (the struct
`user.UserRegisterRequest` is not among the sources; its field names are those of
`user_register_test.go`). -/
def UserRegisterRequest (Name Email Password : String) : List BoundField :=
  [ ⟨⟨"Name", [("json", "name")]⟩, [.required], Name⟩,
    ⟨⟨"Email", [("json", "email")]⟩, [.required, .email], Email⟩,
    ⟨⟨"Password", [("json", "password")]⟩, passwordRules, Password⟩ ]

/-- Modelled from the spec: the password-change body
`{current_password, password, confirm_password}` (the struct
`user.UserUpdatePasswordRequest` is not among the sources; its field names are those of
`user_update_password_test.go`); `confirm_password` carries `eqfield` on the password
field. -/
def UserUpdatePasswordRequest (CurrentPassword Password ConfirmPassword : String) :
    List BoundField :=
  [ ⟨⟨"CurrentPassword", [("json", "current_password")]⟩, [.required], CurrentPassword⟩,
    ⟨⟨"Password", [("json", "password")]⟩, passwordRules, Password⟩,
    ⟨⟨"ConfirmPassword", [("json", "confirm_password")]⟩, [.required, .eqfield "Password"],
      ConfirmPassword⟩ ]

/-- The password of the specification: at least 8 characters, with at least one lowercase
letter, one uppercase letter and one digit. -/
def strongPassword (p : String) : Prop :=
  8 ≤ p.length ∧ (∃ c ∈ p.data, c.isLower = true) ∧ (∃ c ∈ p.data, c.isUpper = true)
    ∧ (∃ c ∈ p.data, c.isDigit = true)

/-- The keyword the specification reports for a password that is not accepted: the first
failing rule in the order `required`, `gte`, `containsany`. -/
def passwordKeyword (p : String) : String :=
  if p = "" then "required" else if p.length < 8 then "gte" else "containsany"

/-! ## The middleware chain -/

/-- Modelled from the spec: the message enumeration of the error envelope (the `response`
package's table is not among the sources). -/
inductive Message where
  | Unauthorized
  | Forbidden
  | RequestValidationFailed
  | TooManyRequests
  | InternalError
deriving DecidableEq, Repr

/-- Modelled from the spec: what the chain reads of a request: method, path, the CSRF
token bound to the cookie, the CSRF token sent in the header, the CSRF token sent in the
specified form field, and the `Authorization` header. -/
structure Request where
  method : String
  path : String
  csrfCookie : Option String
  csrfHeader : Option String
  csrfForm : Option String
  authorization : Option String
deriving DecidableEq, Repr

/-- Modelled from the spec: a subject, by its stable identifier. -/
abbrev Subject := String

/-- Modelled from the spec: the external collaborators of the chain: the pluggable
limiter, the token store (which resolves no subject for an unknown, expired, revoked or
badly signed token), and the decision of the current policy snapshot on
(subject, object, action). -/
structure Collaborators where
  limiterAllows : Request → Bool
  resolveToken : String → Option Subject
  allow : Subject → String → String → Bool

/-- Modelled from the spec: the outcome of the chain: a stage short-circuits with an error
envelope (HTTP status and message, null context), or the handler is invoked with the
subject the chain attached. -/
inductive Outcome where
  | rejected (status : Nat) (message : Message)
  | handler (subject : Option Subject)
deriving DecidableEq, Repr

/-- Modelled from the spec: the safe set of methods. -/
def safeMethods : List String := ["GET", "HEAD", "OPTIONS"]

/-- Modelled from the spec: the token a request transmits: the one of the request header,
or else the one of the specified form field. -/
def transmittedCsrfToken (req : Request) : Option String :=
  match req.csrfHeader with
  | some h => some h
  | none => req.csrfForm

/-- Modelled from the spec: the comparison of the CSRF guard: the transmitted token and the
token bound to the cookie are both present and equal. -/
def csrfMatches (req : Request) : Bool :=
  match req.csrfCookie, transmittedCsrfToken req with
  | some c, some t => decide (c = t)
  | _, _ => false

/-- Modelled from the spec: the token of a well-formed `Authorization: Bearer <token>`
header value. -/
def bearerToken (header : String) : Option String :=
  if header.data.take 7 = "Bearer ".data ∧ header.data.drop 7 ≠ [] then
    some (String.mk (header.data.drop 7))
  else none

/-- Modelled from the spec: the object of a request, its path with the query removed and
a trailing slash stripped. -/
def object (req : Request) : String :=
  let p := req.path.data.takeWhile (fun c => c ≠ '?')
  String.mk (if p.getLast? = some '/' then p.dropLast else p)

/-- Modelled from the spec: the action of a request, its method in upper case. -/
def action (req : Request) : String :=
  req.method.toUpper

/-- Modelled from the spec: a stage of the chain (the middleware package is not among the
sources): it fails with a status and a message, or passes the request context on. -/
abbrev Middleware := Collaborators → Option Subject → Request → Except (Nat × Message) (Option Subject)

/-- Modelled from the spec: the CSRF guard (4.2). -/
def VerifyCsrfToken : Middleware := fun _ ctx req =>
  if req.method ∈ safeMethods then .ok ctx
  else if csrfMatches req then .ok ctx
  else .error (403, Message.Forbidden)

/-- Modelled from the spec: the rate limiter stage, failing with 429 when the limiter
refuses the request. -/
def RateLimit : Middleware := fun env ctx req =>
  if env.limiterAllows req then .ok ctx else .error (429, Message.TooManyRequests)

/-- Modelled from the spec: the authenticator (4.3). -/
def Authenticate : Middleware := fun env _ req =>
  match req.authorization with
  | none => .error (401, Message.Unauthorized)
  | some header =>
    match bearerToken header with
    | none => .error (401, Message.Unauthorized)
    | some token =>
      match env.resolveToken token with
      | none => .error (401, Message.Unauthorized)
      | some subject => .ok (some subject)

/-- Modelled from the spec: the authorizer (4.4). -/
def Authorize : Middleware := fun env ctx req =>
  match ctx with
  | none => .error (401, Message.Unauthorized)
  | some subject =>
    if env.allow subject (object req) (action req) then .ok ctx
    else .error (403, Message.Forbidden)

/-- Modelled from the spec: a chain runs its stages in order and stops at the first one
that fails. -/
def runChain (env : Collaborators) : List Middleware → Option Subject → Request → Outcome
  | [], ctx, _ => .handler ctx
  | m :: ms, ctx, req =>
    match m env ctx req with
    | .error e => .rejected e.1 e.2
    | .ok ctx1 => runChain env ms ctx1 req

/-- Modelled from the spec: the three security stages of a state-changing protected route
in their fixed order, CSRF, Authenticate, Authorize, then the handler. -/
def securityChain : List Middleware :=
  [VerifyCsrfToken, Authenticate, Authorize]

/-- Modelled from the spec: the security stages with the rate limiter standing before the
stage of index `i`, and after all of them when `i` is 3 or more. -/
def chainWithLimiter (i : Nat) : List Middleware :=
  securityChain.take i ++ RateLimit :: securityChain.drop i

/-- Modelled from the spec: the fixed chain of a state-changing protected route as 4.1
gives it, CSRF, RateLimit, Authenticate, Authorize, then the handler. -/
def protectedChain : List Middleware :=
  [VerifyCsrfToken, RateLimit, Authenticate, Authorize]

/-- Modelled from the spec: a request served by a state-changing protected route. -/
def serveProtected (env : Collaborators) (req : Request) : Outcome :=
  runChain env protectedChain none req

/-- The subject a request authenticates as: its bearer token resolved by the token
store. -/
def authenticatedSubject (env : Collaborators) (req : Request) : Option Subject :=
  match req.authorization with
  | none => none
  | some header =>
    match bearerToken header with
    | none => none
    | some token => env.resolveToken token

/-! ## Lemmas on `strings.Split` and `strings.TrimSpace` -/

theorem Index_none_takeWhile (sep : Char) :
    ∀ s : List Char, Index s sep = none → s.takeWhile (fun c => c ≠ sep) = s
  | [], _ => rfl
  | c :: cs, h => by
    by_cases hc : c = sep
    · simp [Index, hc] at h
    · simp only [Index, hc, if_false, Option.map_eq_none'] at h
      rw [List.takeWhile_cons, Index_none_takeWhile sep cs h]
      simp [hc]

theorem Index_some_take (sep : Char) :
    ∀ (s : List Char) (m : Nat), Index s sep = some m →
      s.take m = s.takeWhile (fun c => c ≠ sep)
  | [], _, h => by simp [Index] at h
  | c :: cs, m, h => by
    by_cases hc : c = sep
    · simp only [Index, hc, if_true, Option.some.injEq] at h
      subst h
      simp [List.takeWhile, hc]
    · simp only [Index, hc, if_false, Option.map_eq_some'] at h
      obtain ⟨k, hk, rfl⟩ := h
      rw [List.takeWhile_cons, ← Index_some_take sep cs k hk]
      simp [hc]

theorem Count_zero_takeWhile (sep : Char) (s : List Char) (h : Count s sep = 0) :
    s.takeWhile (fun c => c ≠ sep) = s := by
  rw [List.takeWhile_eq_self_iff]
  intro c hc
  have hne : c ≠ sep := by
    rintro rfl
    exact (List.count_eq_zero.mp h) hc
  simpa using hne

theorem genSplitLoop_head (sep : Char) (n : Nat) (s : List Char)
    (h : n = 0 → Count s sep = 0) :
    (genSplitLoop n s sep)[0]? = some (s.takeWhile (fun c => c ≠ sep)) := by
  cases n with
  | zero =>
    rw [Count_zero_takeWhile sep s (h rfl)]
    rfl
  | succ k =>
    simp only [genSplitLoop]
    cases hi : Index s sep with
    | none =>
      rw [Index_none_takeWhile sep s hi]
      rfl
    | some m =>
      rw [← Index_some_take sep s m hi]
      simp

theorem Split_head (s : List Char) (sep : Char) :
    (Split s sep)[0]? = some (s.takeWhile (fun c => c ≠ sep)) :=
  genSplitLoop_head sep (Count s sep) s (fun h => h)

theorem dropWhile_all_iff (p : Char → Bool) (s : List Char) :
    (∀ c ∈ s.dropWhile p, p c = true) ↔ ∀ c ∈ s, p c = true := by
  induction s with
  | nil => simp
  | cons a t ih =>
    by_cases ha : p a = true
    · simp [List.dropWhile, ha, ih]
    · simp [List.dropWhile, ha]

theorem TrimSpace_eq_nil_iff (s : List Char) :
    TrimSpace s = [] ↔ ∀ c ∈ s, isSpace c = true := by
  unfold TrimSpace
  rw [List.reverse_eq_nil_iff, List.dropWhile_eq_nil_iff]
  simp only [List.mem_reverse]
  exact dropWhile_all_iff isSpace s

theorem String_mk_eq_empty_iff (l : List Char) : String.mk l = "" ↔ l = [] := by
  constructor
  · intro h
    have := congrArg String.data h
    simpa using this
  · rintro rfl
    rfl

theorem trimmedSegment_eq_empty_iff (tagValue : String) :
    trimmedSegment tagValue = "" ↔ ∀ c ∈ firstSegment tagValue, isSpace c = true := by
  unfold trimmedSegment
  rw [String_mk_eq_empty_iff, TrimSpace_eq_nil_iff]

/-- The method `pickTagName` in closed form: it never panics, and off the two special tag
values it is the trimmed first segment. -/
theorem pickTagName_eq (tagValue : String) :
    pickTagName tagValue =
      some (if tagValue = "" ∨ tagValue = "-" then "" else trimmedSegment tagValue) := by
  unfold pickTagName
  split
  · rfl
  · rw [Split_head]
    rfl

theorem pickTagName_eq_empty_iff (tagValue : String) :
    (if tagValue = "" ∨ tagValue = "-" then "" else trimmedSegment tagValue) = ""
      ↔ skippedTag tagValue := by
  unfold skippedTag
  by_cases h : tagValue = "" ∨ tagValue = "-"
  · rw [if_pos h]
    constructor
    · intro _
      rcases h with h | h
      · exact Or.inl h
      · exact Or.inr (Or.inl h)
    · intro _
      rfl
  · rw [if_neg h, trimmedSegment_eq_empty_iff]
    constructor
    · intro hs
      exact Or.inr (Or.inr hs)
    · rintro (h1 | h1 | h1)
      · exact absurd (Or.inl h1) h
      · exact absurd (Or.inr h1) h
      · exact h1

/-- The registered tag-name function in closed form. -/
theorem tagNameFunc_eq (field : StructField) :
    tagNameFunc field =
      some (resolvedFieldName (field.Tag.Get "json") (field.Tag.Get "form") field.Name) := by
  unfold tagNameFunc resolvedFieldName
  rw [pickTagName_eq, pickTagName_eq]
  by_cases hj : field.Tag.Get "json" = "" ∨ field.Tag.Get "json" = "-"
  · have hj2 : ¬ (field.Tag.Get "json" ≠ "" ∧ field.Tag.Get "json" ≠ "-"
        ∧ trimmedSegment (field.Tag.Get "json") ≠ "") := by
      rintro ⟨h1, h2, _⟩
      rcases hj with h | h
      · exact h1 h
      · exact h2 h
    simp only [if_pos hj, if_neg hj2, ne_eq, not_true_eq_false, if_false]
    by_cases hf : field.Tag.Get "form" = "" ∨ field.Tag.Get "form" = "-"
    · have hf2 : ¬ (field.Tag.Get "form" ≠ "" ∧ field.Tag.Get "form" ≠ "-"
          ∧ trimmedSegment (field.Tag.Get "form") ≠ "") := by
        rintro ⟨h1, h2, _⟩
        rcases hf with h | h
        · exact h1 h
        · exact h2 h
      simp only [if_pos hf, if_neg hf2, not_true_eq_false, if_false]
    · rw [if_neg hf]
      have hf1 : field.Tag.Get "form" ≠ "" ∧ field.Tag.Get "form" ≠ "-" := by
        constructor
        · exact fun h => hf (Or.inl h)
        · exact fun h => hf (Or.inr h)
      by_cases ht : trimmedSegment (field.Tag.Get "form") = ""
      · simp [ht]
      · simp [ht, hf1]
  · rw [if_neg hj]
    have hj1 : field.Tag.Get "json" ≠ "" ∧ field.Tag.Get "json" ≠ "-" := by
      constructor
      · exact fun h => hj (Or.inl h)
      · exact fun h => hj (Or.inr h)
    by_cases ht : trimmedSegment (field.Tag.Get "json") = ""
    · simp only [ht, ne_eq, not_true_eq_false, if_false, and_false]
      by_cases hf : field.Tag.Get "form" = "" ∨ field.Tag.Get "form" = "-"
      · have hf2 : ¬ (field.Tag.Get "form" ≠ "" ∧ field.Tag.Get "form" ≠ "-"
            ∧ trimmedSegment (field.Tag.Get "form") ≠ "") := by
          rintro ⟨h1, h2, _⟩
          rcases hf with h | h
          · exact h1 h
          · exact h2 h
        simp only [if_pos hf, not_true_eq_false, if_false]
        rw [if_neg]
        simpa using hf2
      · rw [if_neg hf]
        have hf1 : field.Tag.Get "form" ≠ "" ∧ field.Tag.Get "form" ≠ "-" := by
          constructor
          · exact fun h => hf (Or.inl h)
          · exact fun h => hf (Or.inr h)
        by_cases ht2 : trimmedSegment (field.Tag.Get "form") = ""
        · simp [ht2]
        · simp [ht2, hf1]
    · simp [ht, hj1]

/-! ## Field names: the registrar -/

/-- C10: `pickTagName` is total.  Splitting any tag value on `,` yields at least one
segment, whose element 0 is what stands before the first comma, so the index is in bounds
and the function returns; and it returns the empty string exactly when the tag value is
empty, is `-`, or has a first segment of white space only. -/
theorem pickTagName_total (tagValue : String) :
    1 ≤ (Split tagValue.data ',').length
      ∧ (Split tagValue.data ',')[0]? = some (firstSegment tagValue)
      ∧ ∃ name, pickTagName tagValue = some name
          ∧ (name = "" ↔ (tagValue = "" ∨ tagValue = "-"
              ∨ ∀ c ∈ firstSegment tagValue, isSpace c = true)) := by
  have hhead := Split_head tagValue.data ','
  refine ⟨?_, hhead, _, pickTagName_eq tagValue, pickTagName_eq_empty_iff tagValue⟩
  cases hs : Split tagValue.data ',' with
  | nil => rw [hs] at hhead; simp at hhead
  | cons a t => simp

/-- C8: a field whose Go name is not empty is reported under a name that is not empty,
whatever its json and form tags: a tag value that is empty, is `-`, or has an empty or
blank first segment is skipped, resolution falls through json, then form, and ends at the
Go field name. -/
theorem tagNameFunc_nonempty (field : StructField) (h : field.Name ≠ "") :
    ∃ name, tagNameFunc field = some name ∧ name ≠ ""
      ∧ (¬ skippedTag (field.Tag.Get "json") → name = trimmedSegment (field.Tag.Get "json"))
      ∧ (skippedTag (field.Tag.Get "json") → ¬ skippedTag (field.Tag.Get "form") →
          name = trimmedSegment (field.Tag.Get "form"))
      ∧ (skippedTag (field.Tag.Get "json") → skippedTag (field.Tag.Get "form") →
          name = field.Name) := by
  have hj := pickTagName_eq_empty_iff (field.Tag.Get "json")
  have hf := pickTagName_eq_empty_iff (field.Tag.Get "form")
  have hjt := trimmedSegment_eq_empty_iff (field.Tag.Get "json")
  have hft := trimmedSegment_eq_empty_iff (field.Tag.Get "form")
  refine ⟨_, tagNameFunc_eq field, ?_, ?_, ?_, ?_⟩
  · unfold resolvedFieldName
    split
    · rename_i h1
      exact h1.2.2
    · split
      · rename_i h2
        exact h2.2.2
      · exact h
  · intro hns
    have h1 : field.Tag.Get "json" ≠ "" ∧ field.Tag.Get "json" ≠ "-"
        ∧ trimmedSegment (field.Tag.Get "json") ≠ "" := by
      refine ⟨fun e => hns (Or.inl e), fun e => hns (Or.inr (Or.inl e)), fun e => ?_⟩
      exact hns (Or.inr (Or.inr (hjt.mp e)))
    unfold resolvedFieldName
    rw [if_pos h1]
  · intro hs hns
    have h1 : ¬ (field.Tag.Get "json" ≠ "" ∧ field.Tag.Get "json" ≠ "-"
        ∧ trimmedSegment (field.Tag.Get "json") ≠ "") := by
      rintro ⟨a, b, c⟩
      rcases hs with e | e | e
      · exact a e
      · exact b e
      · exact c (hjt.mpr e)
    have h2 : field.Tag.Get "form" ≠ "" ∧ field.Tag.Get "form" ≠ "-"
        ∧ trimmedSegment (field.Tag.Get "form") ≠ "" := by
      refine ⟨fun e => hns (Or.inl e), fun e => hns (Or.inr (Or.inl e)), fun e => ?_⟩
      exact hns (Or.inr (Or.inr (hft.mp e)))
    unfold resolvedFieldName
    rw [if_neg h1, if_pos h2]
  · intro hs hs2
    have h1 : ¬ (field.Tag.Get "json" ≠ "" ∧ field.Tag.Get "json" ≠ "-"
        ∧ trimmedSegment (field.Tag.Get "json") ≠ "") := by
      rintro ⟨a, b, c⟩
      rcases hs with e | e | e
      · exact a e
      · exact b e
      · exact c (hjt.mpr e)
    have h2 : ¬ (field.Tag.Get "form" ≠ "" ∧ field.Tag.Get "form" ≠ "-"
        ∧ trimmedSegment (field.Tag.Get "form") ≠ "") := by
      rintro ⟨a, b, c⟩
      rcases hs2 with e | e | e
      · exact a e
      · exact b e
      · exact c (hft.mpr e)
    unfold resolvedFieldName
    rw [if_neg h1, if_neg h2]

/-- Witness of C8: a field `Name` tagged `json:",omitempty"`. -/
theorem tagNameFunc_nonempty_witness :
    (⟨"Name", [("json", ",omitempty")]⟩ : StructField).Name ≠ ""
      ∧ ∃ name, tagNameFunc ⟨"Name", [("json", ",omitempty")]⟩ = some name ∧ name ≠ ""
        ∧ (¬ skippedTag (StructTag.Get [("json", ",omitempty")] "json") →
            name = trimmedSegment (StructTag.Get [("json", ",omitempty")] "json"))
        ∧ (skippedTag (StructTag.Get [("json", ",omitempty")] "json") →
            ¬ skippedTag (StructTag.Get [("json", ",omitempty")] "form") →
            name = trimmedSegment (StructTag.Get [("json", ",omitempty")] "form"))
        ∧ (skippedTag (StructTag.Get [("json", ",omitempty")] "json") →
            skippedTag (StructTag.Get [("json", ",omitempty")] "form") → name = "Name") :=
  ⟨by decide, tagNameFunc_nonempty ⟨"Name", [("json", ",omitempty")]⟩ (by decide)⟩

/-- C1, as stated, fails.  A field `Name` tagged `json:",omitempty"` has a json tag value
that exists and is not `-`, whose first segment trimmed is the empty string, yet the
registered function reports `Name`.  And when the JSON name is read as the trimmed first
segment, a field `Dash` tagged `json:"-,"` has the JSON name `-`, yet the registered
function reports `-` and does not move on to the form name or the Go name. -/
theorem specFieldName_counterexample :
    tagNameFunc ⟨"Name", [("json", ",omitempty")]⟩ = some "Name"
      ∧ specFieldName (StructTag.Get [("json", ",omitempty")] "json")
          (StructTag.Get [("json", ",omitempty")] "form") "Name" = ""
      ∧ ¬ (∀ field : StructField, tagNameFunc field
            = some (specFieldName (field.Tag.Get "json") (field.Tag.Get "form") field.Name))
      ∧ tagNameFunc ⟨"Dash", [("json", "-,")]⟩ = some "-"
      ∧ specFieldNameOfSegment (StructTag.Get [("json", "-,")] "json")
          (StructTag.Get [("json", "-,")] "form") "Dash" = "Dash"
      ∧ ¬ (∀ field : StructField, tagNameFunc field
            = some (specFieldNameOfSegment (field.Tag.Get "json") (field.Tag.Get "form")
                field.Name)) := by
  refine ⟨by decide, by decide, fun hall => ?_, by decide, by decide, fun hall => ?_⟩
  · have h := hall ⟨"Name", [("json", ",omitempty")]⟩
    revert h
    decide
  · have h := hall ⟨"Dash", [("json", "-,")]⟩
    revert h
    decide

/-- C1, amended: the reported name is the trimmed first segment of the json tag value when
that value is neither empty nor `-` and the trimmed segment is not empty; otherwise the
form tag value by the same rule; otherwise the Go field name.  A field tagged only
`json:"email"` is reported as `email`, one tagged only `form:"page"` as `page`. -/
theorem tagNameFunc_resolves (field : StructField) :
    tagNameFunc field
        = some (resolvedFieldName (field.Tag.Get "json") (field.Tag.Get "form") field.Name)
      ∧ tagNameFunc ⟨"Email", [("json", "email"), ("binding", "required,email")]⟩
          = some "email"
      ∧ tagNameFunc ⟨"Page", [("form", "page"), ("binding", "required,gt=0")]⟩
          = some "page" :=
  ⟨tagNameFunc_eq field, by decide, by decide⟩

/-! ## Lemmas on Go maps and the context loop -/

/-- The loop of `MakeValidationErrorContext` started from the map `m`. -/
theorem foldl_set_entries (ves : ValidationErrors) (m : GoMap) :
    (ves.foldl (fun out fe => out.set fe.Field fe.Tag) m).entries
      = ves.foldl (fun es fe => setEntry fe.Field fe.Tag es) m.entries := by
  induction ves generalizing m with
  | nil => rfl
  | cons fe rest ih =>
    rw [List.foldl_cons, List.foldl_cons, ih]
    rfl

theorem find?_setEntry (k v k2 : String) (es : List (String × String)) :
    ((setEntry k v es).find? (fun e => e.1 == k2)).map (·.2)
      = if k = k2 then some v else (es.find? (fun e => e.1 == k2)).map (·.2) := by
  induction es with
  | nil =>
    by_cases h : k = k2
    · simp [setEntry, h]
    · simp [setEntry, h]
  | cons e rest ih =>
    by_cases he : e.1 = k
    · have hs : setEntry k v (e :: rest) = (k, v) :: rest := by simp [setEntry, he]
      rw [hs]
      by_cases h : k = k2
      · have hb1 : ((k, v).1 == k2) = true := by simpa using h
        simp only [List.find?_cons, hb1, if_pos h, Option.map_some']
      · have hb1 : ((k, v).1 == k2) = false := by simpa using h
        have hb2 : (e.1 == k2) = false := by rw [he]; simpa using h
        simp only [List.find?_cons, hb1, hb2, if_neg h]
    · have hs : setEntry k v (e :: rest) = e :: setEntry k v rest := by simp [setEntry, he]
      rw [hs]
      by_cases h2 : e.1 = k2
      · have hb : (e.1 == k2) = true := by simpa using h2
        have hne : ¬ k = k2 := fun h3 => he (h3 ▸ h2)
        simp only [List.find?_cons, hb, if_neg hne]
      · have hb : (e.1 == k2) = false := by simpa using h2
        simp only [List.find?_cons, hb]
        exact ih

theorem keys_setEntry (k v : String) (es : List (String × String)) :
    (setEntry k v es).map (·.1)
      = if k ∈ es.map (·.1) then es.map (·.1) else es.map (·.1) ++ [k] := by
  induction es with
  | nil => simp [setEntry]
  | cons e rest ih =>
    by_cases he : e.1 = k
    · simp [setEntry, he]
    · have hne : ¬ k = e.1 := fun h => he h.symm
      simp only [setEntry, he, if_false, List.map_cons, ih, List.mem_cons, hne, false_or]
      split <;> simp

theorem foldl_setEntry_find? (ves : ValidationErrors) (es : List (String × String))
    (k : String) :
    ((ves.foldl (fun es fe => setEntry fe.Field fe.Tag es) es).find?
        (fun e => e.1 == k)).map (·.2)
      = match ves.reverse.find? (fun fe => fe.Field == k) with
        | some fe => some fe.Tag
        | none => (es.find? (fun e => e.1 == k)).map (·.2) := by
  induction ves generalizing es with
  | nil => simp
  | cons fe rest ih =>
    rw [List.foldl_cons, ih, List.reverse_cons, List.find?_append]
    cases hr : rest.reverse.find? (fun fe => fe.Field == k) with
    | some x => simp
    | none =>
      rw [find?_setEntry]
      by_cases h : fe.Field = k
      · simp [h]
      · simp [h]

theorem foldl_setEntry_mem_keys (ves : ValidationErrors) (es : List (String × String))
    (k : String) :
    k ∈ (ves.foldl (fun es fe => setEntry fe.Field fe.Tag es) es).map (·.1)
      ↔ k ∈ es.map (·.1) ∨ ∃ fe ∈ ves, fe.Field = k := by
  induction ves generalizing es with
  | nil => simp
  | cons fe rest ih =>
    rw [List.foldl_cons, ih, keys_setEntry]
    by_cases hm : fe.Field ∈ es.map (·.1)
    · rw [if_pos hm]
      constructor
      · rintro (h | ⟨x, hx, rfl⟩)
        · exact Or.inl h
        · exact Or.inr ⟨x, List.mem_cons_of_mem _ hx, rfl⟩
      · rintro (h | ⟨x, hx, rfl⟩)
        · exact Or.inl h
        · rcases List.mem_cons.mp hx with rfl | hx
          · exact Or.inl hm
          · exact Or.inr ⟨x, hx, rfl⟩
    · rw [if_neg hm]
      constructor
      · rintro (h | ⟨x, hx, rfl⟩)
        · rcases List.mem_append.mp h with h | h
          · exact Or.inl h
          · rw [List.mem_singleton] at h
            exact Or.inr ⟨fe, List.mem_cons_self _ _, h.symm⟩
        · exact Or.inr ⟨x, List.mem_cons_of_mem _ hx, rfl⟩
      · rintro (h | ⟨x, hx, rfl⟩)
        · exact Or.inl (List.mem_append_left _ h)
        · rcases List.mem_cons.mp hx with rfl | hx
          · exact Or.inl (List.mem_append_right _ (List.mem_singleton.mpr rfl))
          · exact Or.inr ⟨x, hx, rfl⟩

theorem foldl_setEntry_nodup (ves : ValidationErrors) (es : List (String × String))
    (h : (es.map (·.1)).Nodup) :
    ((ves.foldl (fun es fe => setEntry fe.Field fe.Tag es) es).map (·.1)).Nodup := by
  induction ves generalizing es with
  | nil => exact h
  | cons fe rest ih =>
    rw [List.foldl_cons]
    apply ih
    rw [keys_setEntry]
    by_cases hm : fe.Field ∈ es.map (·.1)
    · rw [if_pos hm]
      exact h
    · rw [if_neg hm]
      exact List.Nodup.append h (List.nodup_singleton _) (by simpa using hm)

/-- The context built from a list of field errors. -/
theorem MakeValidationErrorContext_validation (ves : ValidationErrors) :
    MakeValidationErrorContext (some (GoError.validation ves))
      = some ⟨ves.foldl (fun es fe => setEntry fe.Field fe.Tag es) []⟩ := by
  simp only [MakeValidationErrorContext, errorsAs, errorsAsTree]
  congr 1
  have := foldl_set_entries ves GoMap.make
  cases hm : ves.foldl (fun out fe => out.set fe.Field fe.Tag) GoMap.make with
  | mk es =>
    rw [hm] at this
    simp only [GoMap.make] at this
    rw [← this]

theorem context_get? (ves : ValidationErrors) (k : String) :
    GoMap.get? ⟨ves.foldl (fun es fe => setEntry fe.Field fe.Tag es) []⟩ k
      = (ves.reverse.find? (fun fe => fe.Field == k)).map (·.Tag) := by
  unfold GoMap.get?
  rw [foldl_setEntry_find?]
  cases ves.reverse.find? (fun fe => fe.Field == k) <;> simp

theorem context_mem_keys (ves : ValidationErrors) (k : String) :
    k ∈ GoMap.keys ⟨ves.foldl (fun es fe => setEntry fe.Field fe.Tag es) []⟩
      ↔ ∃ fe ∈ ves, fe.Field = k := by
  unfold GoMap.keys
  rw [foldl_setEntry_mem_keys]
  simp

theorem context_keys_nodup (ves : ValidationErrors) :
    (GoMap.keys ⟨ves.foldl (fun es fe => setEntry fe.Field fe.Tag es) []⟩).Nodup :=
  foldl_setEntry_nodup ves [] (by simp)

theorem context_len (ves : ValidationErrors) :
    GoMap.len ⟨ves.foldl (fun es fe => setEntry fe.Field fe.Tag es) []⟩
      = (ves.map (·.Field)).dedup.length := by
  have hnd := context_keys_nodup ves
  have hperm : List.Perm
      (GoMap.keys ⟨ves.foldl (fun es fe => setEntry fe.Field fe.Tag es) []⟩)
      (ves.map (·.Field)).dedup := by
    rw [List.perm_ext_iff_of_nodup hnd (List.nodup_dedup _)]
    intro k
    rw [context_mem_keys, List.mem_dedup, List.mem_map]
  have := hperm.length_eq
  simpa [GoMap.keys, GoMap.len] using this

theorem dedup_length_eq_iff (l : List String) : l.dedup.length = l.length ↔ l.Nodup := by
  constructor
  · intro h
    have : l.dedup = l := (List.dedup_sublist l).eq_of_length h
    rw [← this]
    exact List.nodup_dedup l
  · intro h
    rw [h.dedup]

theorem find?_reverse_of_nodup (ves : ValidationErrors) (k : String)
    (h : (ves.map (·.Field)).Nodup) :
    ves.reverse.find? (fun fe => fe.Field == k) = ves.find? (fun fe => fe.Field == k) := by
  induction ves with
  | nil => rfl
  | cons fe rest ih =>
    rw [List.map_cons, List.nodup_cons] at h
    rw [List.reverse_cons, List.find?_append, ih h.2]
    by_cases hk : fe.Field = k
    · have hnone : rest.find? (fun fe => fe.Field == k) = none := by
        rw [List.find?_eq_none]
        intro x hx hxk
        apply h.1
        rw [List.mem_map]
        exact ⟨x, hx, by simpa [hk] using hxk⟩
      simp [hnone, hk]
    · have hb : (fe.Field == k) = false := by simpa using hk
      simp only [List.find?_cons, hb, List.find?_nil, Option.or_none]

/-! ## The validation error context -/

mutual
theorem errorsAsTree_isSome_iff :
    ∀ e : GoError, (errorsAsTree e).isSome = true ↔ WrapsValidationErrors e
  | .other _ => by
    simp only [errorsAsTree, Option.isSome_none, Bool.false_eq_true, false_iff]
    intro h
    cases h
  | .validation ve => by
    simp only [errorsAsTree, Option.isSome_some, true_iff]
    exact WrapsValidationErrors.self ve
  | .wrap msg inner => by
    simp only [errorsAsTree]
    rw [errorsAsTree_isSome_iff inner]
    constructor
    · exact WrapsValidationErrors.wrap msg inner
    · intro h
      cases h
      assumption
  | .join errs => by
    simp only [errorsAsTree]
    rw [errorsAsList_isSome_iff errs]
    constructor
    · rintro ⟨e, he, hw⟩
      exact WrapsValidationErrors.join errs e he hw
    · intro h
      cases h with
      | join _ e he hw => exact ⟨e, he, hw⟩
theorem errorsAsList_isSome_iff :
    ∀ errs : List GoError,
      (errorsAsList errs).isSome = true ↔ ∃ e ∈ errs, WrapsValidationErrors e
  | [] => by simp [errorsAsList]
  | e :: es => by
    have h1 := errorsAsTree_isSome_iff e
    have h2 := errorsAsList_isSome_iff es
    simp only [errorsAsList]
    cases hv : errorsAsTree e with
    | some ve =>
      rw [hv] at h1
      simp only [Option.isSome_some, true_iff]
      exact ⟨e, List.mem_cons_self _ _, h1.mp rfl⟩
    | none =>
      rw [hv] at h1
      simp only [h2]
      constructor
      · rintro ⟨x, hx, hw⟩
        exact ⟨x, List.mem_cons_of_mem _ hx, hw⟩
      · rintro ⟨x, hx, hw⟩
        rcases List.mem_cons.mp hx with rfl | hx
        · have := h1.mpr hw
          simp at this
        · exact ⟨x, hx, hw⟩
end

theorem MakeValidationErrorContext_eq_none_iff (err : Option GoError) :
    MakeValidationErrorContext err = none ↔ errorsAs err = none := by
  unfold MakeValidationErrorContext
  cases errorsAs err <;> simp

/-- C2, as stated, fails: when two entries report the same field name (two nested structs
with a field of the same name, say) the context holds the tag of the last entry, not of
the first. -/
theorem firstEntry_counterexample :
    MakeValidationErrorContext
        (some (GoError.validation [⟨"street", "required"⟩, ⟨"street", "gte"⟩]))
      = some ⟨[("street", "gte")]⟩
    ∧ (([⟨"street", "required"⟩, ⟨"street", "gte"⟩] : ValidationErrors).find?
        (fun fe => fe.Field == "street")).map (·.Tag) = some "required"
    ∧ ¬ (∀ (ves : ValidationErrors) (ctx : GoMap),
          MakeValidationErrorContext (some (GoError.validation ves)) = some ctx →
          ∀ k, ctx.get? k = (ves.find? (fun fe => fe.Field == k)).map (·.Tag)) := by
  refine ⟨by decide, by decide, fun hall => ?_⟩
  have h := hall [⟨"street", "required"⟩, ⟨"street", "gte"⟩] ⟨[("street", "gte")]⟩
    (by decide) "street"
  revert h
  decide

/-- C2, amended: for every list of field errors, the context has exactly the reported field
names as keys, one entry per name, and each key is mapped to the tag of the last entry
carrying that name; when the reported names are distinct that entry is also the first. -/
theorem context_keys_and_tags (ves : ValidationErrors) :
    ∃ ctx, MakeValidationErrorContext (some (GoError.validation ves)) = some ctx
      ∧ (∀ k, k ∈ ctx.keys ↔ ∃ fe ∈ ves, fe.Field = k)
      ∧ ctx.keys.Nodup
      ∧ (∀ k, ctx.get? k = (ves.reverse.find? (fun fe => fe.Field == k)).map (·.Tag))
      ∧ ((ves.map (·.Field)).Nodup →
          ∀ k, ctx.get? k = (ves.find? (fun fe => fe.Field == k)).map (·.Tag)) := by
  refine ⟨_, MakeValidationErrorContext_validation ves, context_mem_keys ves,
    context_keys_nodup ves, context_get? ves, fun hnd k => ?_⟩
  rw [context_get?, find?_reverse_of_nodup ves k hnd]

/-- C9: when several entries report the same field name the context keeps the tag of the
last of them; the context has as many entries as there are distinct reported names, which
is the number of errors exactly when all reported names are distinct. -/
theorem context_last_wins (ves : ValidationErrors) :
    ∃ ctx, MakeValidationErrorContext (some (GoError.validation ves)) = some ctx
      ∧ (∀ k, ctx.get? k = (ves.reverse.find? (fun fe => fe.Field == k)).map (·.Tag))
      ∧ ctx.len = (ves.map (·.Field)).dedup.length
      ∧ (ctx.len = ves.length ↔ (ves.map (·.Field)).Nodup) := by
  refine ⟨_, MakeValidationErrorContext_validation ves, context_get? ves, context_len ves, ?_⟩
  rw [context_len, ← dedup_length_eq_iff, List.length_map]

/-- C4: the context is nil exactly when the error neither is nor wraps a
`validator.ValidationErrors` value, as for a nil error or a body decode error; for every
`ValidationErrors` value, the empty one included, the result is a non-nil map. -/
theorem context_nil_iff (err : Option GoError) :
    (MakeValidationErrorContext err = none
        ↔ ¬ ∃ e, err = some e ∧ WrapsValidationErrors e)
      ∧ (∀ msg, MakeValidationErrorContext (some (GoError.other msg)) = none)
      ∧ (∀ ves, ∃ ctx, MakeValidationErrorContext (some (GoError.validation ves)) = some ctx)
      ∧ MakeValidationErrorContext (some (GoError.validation [])) = some ⟨[]⟩ := by
  refine ⟨?_, fun _ => rfl, fun ves => ⟨_, MakeValidationErrorContext_validation ves⟩, rfl⟩
  rw [MakeValidationErrorContext_eq_none_iff]
  cases err with
  | none => simp [errorsAs]
  | some e =>
    have h := errorsAsTree_isSome_iff e
    simp only [errorsAs, Option.some.injEq, exists_eq_left']
    rw [← h]
    cases errorsAsTree e <;> simp

/-! ## The request validator -/

theorem resolvedFieldName_eq_empty (j f n : String) (h : resolvedFieldName j f n = "") :
    n = "" := by
  unfold resolvedFieldName at h
  split at h
  · rename_i h1
    exact absurd h h1.2.2
  · split at h
    · rename_i h2
      exact absurd h h2.2.2
    · exact h

theorem reportedName_eq (field : StructField) :
    reportedName field
      = some (resolvedFieldName (field.Tag.Get "json") (field.Tag.Get "form") field.Name) := by
  unfold reportedName
  rw [tagNameFunc_eq]
  by_cases h : resolvedFieldName (field.Tag.Get "json") (field.Tag.Get "form") field.Name = ""
  · simp only [h, ne_eq, not_true_eq_false, if_false]
    rw [resolvedFieldName_eq_empty _ _ _ h]
  · simp only [ne_eq, h, not_false_eq_true, if_true]

theorem fieldErrors_eq (isEmail : String → Bool) (body : List BoundField) :
    ∀ bs, fieldErrors isEmail body bs = some (failingFields isEmail body bs)
  | [] => rfl
  | b :: bs => by
    unfold fieldErrors
    rw [reportedName_eq, fieldErrors_eq isEmail body bs]
    unfold failingFields
    cases h : firstFailing isEmail body b with
    | none => simp [List.filterMap_cons, h]
    | some r => simp [List.filterMap_cons, h]

theorem validateStruct_eq (isEmail : String → Bool) (body : List BoundField) :
    validateStruct isEmail body
      = match failingFields isEmail body body with
        | [] => some none
        | fe :: rest => some (some (GoError.validation (fe :: rest))) := by
  unfold validateStruct
  rw [fieldErrors_eq]
  cases failingFields isEmail body body <;> rfl

theorem validationContext_eq (isEmail : String → Bool) (body : List BoundField) :
    validationContext isEmail body
      = match failingFields isEmail body body with
        | [] => none
        | fe :: rest =>
          some (some ⟨(fe :: rest).foldl (fun es fe => setEntry fe.Field fe.Tag es) []⟩) := by
  unfold validationContext
  rw [validateStruct_eq]
  cases h : failingFields isEmail body body with
  | nil => rfl
  | cons fe rest =>
    simp only
    rw [MakeValidationErrorContext_validation]

theorem isValidTag_ne_nil (isLetter isDigit : Char → Bool) (s : List Char)
    (h : isValidTag isLetter isDigit s = true) : s ≠ [] := by
  rintro rfl
  simp [isValidTag] at h

theorem firstSegment_ne_nil_of_dash (tagValue : String) (h : tagValue = "-") :
    firstSegment tagValue ≠ [] := by
  subst h
  decide

theorem resolvedFieldName_reportsJsonName (isLetter isDigit : Char → Bool)
    (field : StructField) (h : reportsJsonName isLetter isDigit field) :
    jsonSerializationName isLetter isDigit field
      = some (resolvedFieldName (field.Tag.Get "json") (field.Tag.Get "form") field.Name) := by
  have hj := trimmedSegment_eq_empty_iff (field.Tag.Get "json")
  have hf := trimmedSegment_eq_empty_iff (field.Tag.Get "form")
  unfold jsonSerializationName
  rcases h with ⟨h1, h2, h3⟩ | ⟨h1, h2⟩
  · have hseg := isValidTag_ne_nil isLetter isDigit _ h2
    have hne : field.Tag.Get "json" ≠ "" := by
      intro he
      apply hseg
      rw [he]
      rfl
    have ht : trimmedSegment (field.Tag.Get "json")
        = String.mk (firstSegment (field.Tag.Get "json")) := by
      unfold trimmedSegment
      rw [h3]
    have hte : trimmedSegment (field.Tag.Get "json") ≠ "" := by
      rw [ht, Ne, String_mk_eq_empty_iff]
      exact hseg
    unfold resolvedFieldName
    rw [if_neg h1, if_pos h2, if_pos ⟨hne, h1, hte⟩, ht]
  · have hdash : field.Tag.Get "json" ≠ "-" :=
      fun he => firstSegment_ne_nil_of_dash _ he h1
    have hinv : ¬ isValidTag isLetter isDigit (firstSegment (field.Tag.Get "json")) = true :=
      fun hv => isValidTag_ne_nil isLetter isDigit _ hv h1
    have hte : trimmedSegment (field.Tag.Get "json") = "" := by
      rw [hj, h1]
      intro c hc
      cases hc
    have hn1 : ¬ (field.Tag.Get "json" ≠ "" ∧ field.Tag.Get "json" ≠ "-"
        ∧ trimmedSegment (field.Tag.Get "json") ≠ "") := fun hh => hh.2.2 hte
    have hn2 : ¬ (field.Tag.Get "form" ≠ "" ∧ field.Tag.Get "form" ≠ "-"
        ∧ trimmedSegment (field.Tag.Get "form") ≠ "") := by
      rintro ⟨a, b, c⟩
      rcases h2 with e | e | e
      · exact a e
      · exact b e
      · exact c (hf.mpr e)
    unfold resolvedFieldName
    rw [if_neg hdash, if_neg hinv, if_neg hn1, if_neg hn2]

/-- C3, as stated, fails: the field `Page` of `registrar_test.go`, tagged only
`form:"page"`, is reported under the key `page`, while its JSON serialization name is the
Go field name `Page`, whatever the letter and digit tables are. -/
theorem jsonSerializationName_counterexample :
    validationContext (fun _ => true) [⟨⟨"Page", [("form", "page")]⟩, [.required], ""⟩]
      = some (some ⟨[("page", "required")]⟩)
    ∧ (∀ isLetter isDigit : Char → Bool,
        jsonSerializationName isLetter isDigit ⟨"Page", [("form", "page")]⟩ = some "Page")
    ∧ (∀ isLetter isDigit : Char → Bool,
        ¬ (∀ (isEmail : String → Bool) (body : List BoundField) (ctx : GoMap),
            validationContext isEmail body = some (some ctx) →
            ∀ k ∈ ctx.keys, ∃ b ∈ body,
              jsonSerializationName isLetter isDigit b.field = some k)) := by
  have hname : ∀ isLetter isDigit : Char → Bool,
      jsonSerializationName isLetter isDigit ⟨"Page", [("form", "page")]⟩ = some "Page" :=
    fun _ _ => rfl
  refine ⟨by decide, hname, fun isLetter isDigit hall => ?_⟩
  obtain ⟨b, hb, hk⟩ := hall (fun _ => true)
    [⟨⟨"Page", [("form", "page")]⟩, [.required], ""⟩]
    ⟨[("page", "required")]⟩ (by decide) "page" (by decide)
  rw [List.mem_singleton] at hb
  subst hb
  rw [hname isLetter isDigit] at hk
  revert hk
  decide

/-- C3, amended: every key of the error context is the name the registrar resolves for a
failing field of the body (json name segment, else form name segment, else Go name); it is
the JSON serialization name of that field when the field's json tag is not `-` and its
name segment is a valid JSON name without surrounding white space, or when the json tag
has no name segment and the form tag names nothing. -/
theorem context_keys_resolved (isLetter isDigit : Char → Bool) (isEmail : String → Bool)
    (body : List BoundField) (ctx : GoMap)
    (h : validationContext isEmail body = some (some ctx)) :
    ∀ k ∈ ctx.keys, ∃ b ∈ body, firstFailing isEmail body b ≠ none
      ∧ k = resolvedFieldName (b.field.Tag.Get "json") (b.field.Tag.Get "form") b.field.Name
      ∧ (reportsJsonName isLetter isDigit b.field →
          jsonSerializationName isLetter isDigit b.field = some k) := by
  intro k hk
  rw [validationContext_eq] at h
  cases hf : failingFields isEmail body body with
  | nil => rw [hf] at h; simp at h
  | cons fe rest =>
    rw [hf] at h
    simp only [Option.some.injEq] at h
    rw [← h, context_mem_keys, ← hf] at hk
    obtain ⟨x, hx, rfl⟩ := hk
    unfold failingFields at hx
    rw [List.mem_filterMap] at hx
    obtain ⟨b, hb, hbx⟩ := hx
    cases hff : firstFailing isEmail body b with
    | none => rw [hff] at hbx; simp at hbx
    | some r =>
      rw [hff] at hbx
      simp only [Option.map_some', Option.some.injEq] at hbx
      refine ⟨b, hb, by simp [hff], ?_, ?_⟩
      · rw [← hbx]
      · intro hr
        rw [← hbx]
        exact resolvedFieldName_reportsJsonName isLetter isDigit b.field hr

/-- Witness of C3, amended: the registration body `{}`, whose three fields carry json names
and fail `required`, at the key `email`, with the ASCII letters and digits for tables. -/
theorem context_keys_resolved_witness :
    validationContext (fun _ => true) (UserRegisterRequest "" "" "")
        = some (some ⟨[("name", "required"), ("email", "required"), ("password", "required")]⟩)
      ∧ "email" ∈ GoMap.keys
          ⟨[("name", "required"), ("email", "required"), ("password", "required")]⟩
      ∧ jsonSerializationName Char.isAlpha Char.isDigit ⟨"Email", [("json", "email")]⟩
          = some "email"
      ∧ ∃ b ∈ UserRegisterRequest "" "" "",
          firstFailing (fun _ => true) (UserRegisterRequest "" "" "") b ≠ none
          ∧ "email" = resolvedFieldName (b.field.Tag.Get "json") (b.field.Tag.Get "form")
              b.field.Name
          ∧ (reportsJsonName Char.isAlpha Char.isDigit b.field →
              jsonSerializationName Char.isAlpha Char.isDigit b.field = some "email") :=
  ⟨by decide, by decide, by decide,
    context_keys_resolved Char.isAlpha Char.isDigit (fun _ => true)
      (UserRegisterRequest "" "" "")
      ⟨[("name", "required"), ("email", "required"), ("password", "required")]⟩ (by decide)
      "email" (by decide)⟩

/-! ## The password rule set -/

theorem toNat_range_mem (l : List Char) (lo len : Nat)
    (hall : ∀ k : Fin len, Char.ofNat (lo + k.val) ∈ l)
    (c : Char) (h1 : lo ≤ c.toNat) (h2 : c.toNat < lo + len) : c ∈ l := by
  have hk := hall ⟨c.toNat - lo, by omega⟩
  have he : lo + (c.toNat - lo) = c.toNat := by omega
  simp only [he] at hk
  simpa using hk

theorem contains_lowercase (c : Char) : lowercase.data.contains c = c.isLower := by
  rw [Bool.eq_iff_iff]
  show List.elem c _ = true ↔ _
  rw [List.elem_iff]
  constructor
  · intro h
    have hall : ∀ x ∈ lowercase.data, x.isLower = true := by decide
    exact hall c h
  · intro h
    simp only [Char.isLower, Bool.and_eq_true, decide_eq_true_eq] at h
    have h1 : 97 ≤ c.toNat := h.1
    have h2 : c.toNat ≤ 122 := h.2
    have hall : ∀ k : Fin 26, Char.ofNat (97 + k.val) ∈ lowercase.data := by decide
    exact toNat_range_mem _ 97 26 hall c h1 (by omega)

theorem contains_uppercase (c : Char) : uppercase.data.contains c = c.isUpper := by
  rw [Bool.eq_iff_iff]
  show List.elem c _ = true ↔ _
  rw [List.elem_iff]
  constructor
  · intro h
    have hall : ∀ x ∈ uppercase.data, x.isUpper = true := by decide
    exact hall c h
  · intro h
    simp only [Char.isUpper, Bool.and_eq_true, decide_eq_true_eq] at h
    have h1 : 65 ≤ c.toNat := h.1
    have h2 : c.toNat ≤ 90 := h.2
    have hall : ∀ k : Fin 26, Char.ofNat (65 + k.val) ∈ uppercase.data := by decide
    exact toNat_range_mem _ 65 26 hall c h1 (by omega)

theorem contains_digits (c : Char) : digits.data.contains c = c.isDigit := by
  rw [Bool.eq_iff_iff]
  show List.elem c _ = true ↔ _
  rw [List.elem_iff]
  constructor
  · intro h
    have hall : ∀ x ∈ digits.data, x.isDigit = true := by decide
    exact hall c h
  · intro h
    simp only [Char.isDigit, Bool.and_eq_true, decide_eq_true_eq] at h
    have h1 : 48 ≤ c.toNat := h.1
    have h2 : c.toNat ≤ 57 := h.2
    have hall : ∀ k : Fin 10, Char.ofNat (48 + k.val) ∈ digits.data := by decide
    exact toNat_range_mem _ 48 10 hall c h1 (by omega)

theorem containsany_iff (chars : String) (q : Char → Bool)
    (hq : ∀ c, chars.data.contains c = q c) (p : String) :
    p.data.any (fun c => chars.data.contains c) = true ↔ ∃ c ∈ p.data, q c = true := by
  rw [List.any_eq_true]
  simp only [hq]

theorem length_pos_of_ne_empty (p : String) (h : p ≠ "") : 0 < p.length := by
  rcases p with ⟨l⟩
  cases l with
  | nil => exact absurd rfl h
  | cons a t => simp [String.length]

/-- The first failing rule of a password field. -/
theorem firstFailing_password (isEmail : String → Bool) (body : List BoundField)
    (fld : StructField) (p : String) :
    (firstFailing isEmail body ⟨fld, passwordRules, p⟩ = none ↔ strongPassword p)
      ∧ (¬ strongPassword p → ∃ r, firstFailing isEmail body ⟨fld, passwordRules, p⟩ = some r
          ∧ r.keyword = passwordKeyword p) := by
  have hl := containsany_iff lowercase Char.isLower contains_lowercase p
  have hu := containsany_iff uppercase Char.isUpper contains_uppercase p
  have hd := containsany_iff digits Char.isDigit contains_digits p
  unfold firstFailing passwordRules strongPassword passwordKeyword
  simp only [List.find?_cons, List.find?_nil, Rule.holds]
  by_cases h0 : p = ""
  · subst h0
    simp [Rule.keyword]
  · have hpos := length_pos_of_ne_empty p h0
    have hr : decide (p ≠ "") = true := by simpa using h0
    simp only [hr, Bool.not_true, if_neg h0]
    by_cases h8 : 8 ≤ p.length
    · have hg : decide (8 ≤ p.length) = true := by simpa using h8
      have hlt : ¬ p.length < 8 := by omega
      simp only [hg, Bool.not_true, if_neg hlt]
      by_cases h1 : p.data.any (fun c => lowercase.data.contains c) = true
      · by_cases h2 : p.data.any (fun c => uppercase.data.contains c) = true
        · by_cases h3 : p.data.any (fun c => digits.data.contains c) = true
          · simp only [h1, h2, h3, Bool.not_true]
            exact ⟨⟨fun _ => ⟨h8, hl.mp h1, hu.mp h2, hd.mp h3⟩, fun _ => trivial⟩,
              fun hn => absurd ⟨h8, hl.mp h1, hu.mp h2, hd.mp h3⟩ hn⟩
          · have h3f : p.data.any (fun c => digits.data.contains c) = false := by simpa using h3
            simp only [h1, h2, h3f, Bool.not_true, Bool.not_false]
            refine ⟨⟨fun hh => by simp at hh, fun hs => absurd (hd.mpr hs.2.2.2) h3⟩,
              fun _ => ⟨_, rfl, rfl⟩⟩
        · have h2f : p.data.any (fun c => uppercase.data.contains c) = false := by simpa using h2
          simp only [h1, h2f, Bool.not_true, Bool.not_false]
          refine ⟨⟨fun hh => by simp at hh, fun hs => absurd (hu.mpr hs.2.2.1) h2⟩,
            fun _ => ⟨_, rfl, rfl⟩⟩
      · have h1f : p.data.any (fun c => lowercase.data.contains c) = false := by simpa using h1
        simp only [h1f, Bool.not_false]
        refine ⟨⟨fun hh => by simp at hh, fun hs => absurd (hl.mpr hs.2.1) h1⟩,
          fun _ => ⟨_, rfl, rfl⟩⟩
    · have hg : decide (8 ≤ p.length) = false := by simpa using h8
      have hlt : p.length < 8 := by omega
      simp only [hg, Bool.not_false, if_pos hlt]
      refine ⟨⟨fun hh => by simp at hh, fun hs => absurd hs.1 h8⟩, fun _ => ⟨_, rfl, rfl⟩⟩

theorem firstFailing_required (isEmail : String → Bool) (body : List BoundField)
    (fld : StructField) (v : String) :
    firstFailing isEmail body ⟨fld, [.required], v⟩
      = if v = "" then some Rule.required else none := by
  unfold firstFailing
  by_cases h : v = ""
  · simp [Rule.holds, h]
  · simp [Rule.holds, h]

theorem firstFailing_required_email (isEmail : String → Bool) (body : List BoundField)
    (fld : StructField) (v : String) (h : v ≠ "") (he : isEmail v = true) :
    firstFailing isEmail body ⟨fld, [.required, .email], v⟩ = none := by
  unfold firstFailing
  simp [Rule.holds, h, he]

theorem firstFailing_confirm (isEmail : String → Bool) (fld : StructField)
    (cur p c : String) :
    firstFailing isEmail (UserUpdatePasswordRequest cur p c)
        ⟨fld, [.required, .eqfield "Password"], c⟩
      = if c = "" then some Rule.required
        else if c = p then none else some (Rule.eqfield "Password") := by
  have hfind : (UserUpdatePasswordRequest cur p c).find?
      (fun b => b.field.Name == "Password")
      = some ⟨⟨"Password", [("json", "password")]⟩, passwordRules, p⟩ := by
    have h1 : ("CurrentPassword" == "Password") = false := by decide
    have h2 : ("Password" == "Password") = true := by decide
    simp only [UserUpdatePasswordRequest, List.find?_cons, h1, h2]
  unfold firstFailing
  simp only [List.find?_cons, List.find?_nil, Rule.holds, hfind]
  by_cases h0 : c = ""
  · have d0 : decide (c ≠ "") = false := by simpa using h0
    simp only [d0, Bool.not_false, if_pos h0]
  · have d0 : decide (c ≠ "") = true := by simpa using h0
    by_cases h1 : c = p
    · have d1 : decide (c = p) = true := by simpa using h1
      simp only [d0, d1, Bool.not_true, if_neg h0, if_pos h1]
    · have d1 : decide (c = p) = false := by simpa using h1
      simp only [d0, d1, Bool.not_true, Bool.not_false, if_neg h0, if_neg h1]

theorem failingFields_three (isEmail : String → Bool) (body : List BoundField)
    (b1 b2 b3 : BoundField) :
    failingFields isEmail body [b1, b2, b3]
      = failingFields isEmail body [b1] ++ failingFields isEmail body [b2]
          ++ failingFields isEmail body [b3] := by
  unfold failingFields
  rw [← List.filterMap_append, ← List.filterMap_append]
  rfl

theorem failingFields_one (isEmail : String → Bool) (body : List BoundField)
    (b : BoundField) :
    failingFields isEmail body [b]
      = match firstFailing isEmail body b with
        | none => []
        | some r =>
          [⟨resolvedFieldName (b.field.Tag.Get "json") (b.field.Tag.Get "form") b.field.Name,
            r.keyword⟩] := by
  unfold failingFields
  cases h : firstFailing isEmail body b <;> simp [List.filterMap_cons, h]

/-- The field errors of a registration body whose name and email are valid. -/
theorem failingFields_register (isEmail : String → Bool) (name email p : String)
    (hname : name ≠ "") (hemail : email ≠ "") (hvalid : isEmail email = true) :
    failingFields isEmail (UserRegisterRequest name email p) (UserRegisterRequest name email p)
      = match firstFailing isEmail (UserRegisterRequest name email p)
            ⟨⟨"Password", [("json", "password")]⟩, passwordRules, p⟩ with
        | none => []
        | some r => [⟨"password", r.keyword⟩] := by
  have hn : resolvedFieldName (StructTag.Get [("json", "password")] "json")
      (StructTag.Get [("json", "password")] "form") "Password" = "password" := by decide
  show failingFields isEmail (UserRegisterRequest name email p)
      [⟨⟨"Name", [("json", "name")]⟩, [.required], name⟩,
        ⟨⟨"Email", [("json", "email")]⟩, [.required, .email], email⟩,
        ⟨⟨"Password", [("json", "password")]⟩, passwordRules, p⟩] = _
  rw [failingFields_three, failingFields_one, failingFields_one, failingFields_one,
    firstFailing_required, if_neg hname,
    firstFailing_required_email isEmail _ _ email hemail hvalid]
  simp only [List.nil_append, hn]

/-- The field errors of a password-change body whose current password is present. -/
theorem failingFields_update (isEmail : String → Bool) (cur p c : String) (hcur : cur ≠ "") :
    failingFields isEmail (UserUpdatePasswordRequest cur p c)
        (UserUpdatePasswordRequest cur p c)
      = (match firstFailing isEmail (UserUpdatePasswordRequest cur p c)
            ⟨⟨"Password", [("json", "password")]⟩, passwordRules, p⟩ with
          | none => []
          | some r => [⟨"password", r.keyword⟩])
        ++ (if c = "" then [⟨"confirm_password", "required"⟩]
            else if c = p then [] else [⟨"confirm_password", "eqfield"⟩]) := by
  have hn : resolvedFieldName (StructTag.Get [("json", "password")] "json")
      (StructTag.Get [("json", "password")] "form") "Password" = "password" := by decide
  have hc : resolvedFieldName (StructTag.Get [("json", "confirm_password")] "json")
      (StructTag.Get [("json", "confirm_password")] "form") "ConfirmPassword"
        = "confirm_password" := by decide
  show failingFields isEmail (UserUpdatePasswordRequest cur p c)
      [⟨⟨"CurrentPassword", [("json", "current_password")]⟩, [.required], cur⟩,
        ⟨⟨"Password", [("json", "password")]⟩, passwordRules, p⟩,
        ⟨⟨"ConfirmPassword", [("json", "confirm_password")]⟩,
          [.required, .eqfield "Password"], c⟩] = _
  rw [failingFields_three, failingFields_one, failingFields_one, failingFields_one,
    firstFailing_required, if_neg hcur, firstFailing_confirm]
  simp only [List.nil_append, hn, hc]
  congr 1
  by_cases h0 : c = ""
  · simp only [if_pos h0, Rule.keyword]
  · by_cases h1 : c = p
    · simp only [if_neg h0, if_pos h1]
    · simp only [if_neg h0, if_neg h1, Rule.keyword]

theorem not_strongPassword_empty : ¬ strongPassword "" := by
  unfold strongPassword
  decide

/-- C5: in a registration or password-change body whose other fields are valid, a
password is accepted exactly when it has at least 8 characters and contains a lowercase
letter, an uppercase letter and a digit; otherwise the context maps `password` to the
first failing rule in the order `required`, `gte`, `containsany`, as for the passwords of
the controller tests. -/
theorem password_rule_set (isEmail : String → Bool) (name email cur p : String)
    (hname : name ≠ "") (hemail : email ≠ "") (hvalid : isEmail email = true)
    (hcur : cur ≠ "") :
    (validateStruct isEmail (UserRegisterRequest name email p) = some none ↔ strongPassword p)
      ∧ (¬ strongPassword p →
          validationContext isEmail (UserRegisterRequest name email p)
            = some (some ⟨[("password", passwordKeyword p)]⟩))
      ∧ (validateStruct isEmail (UserUpdatePasswordRequest cur p p) = some none
          ↔ strongPassword p)
      ∧ (¬ strongPassword p →
          ∃ ctx, validationContext isEmail (UserUpdatePasswordRequest cur p p)
              = some (some ctx)
            ∧ ctx.get? "password" = some (passwordKeyword p)
            ∧ (p ≠ "" → ctx = ⟨[("password", passwordKeyword p)]⟩))
      ∧ passwordKeyword "" = "required" ∧ passwordKeyword "Abc12" = "gte"
      ∧ passwordKeyword "ABCDEFG1" = "containsany" ∧ ¬ strongPassword "ABCDEFG1"
      ∧ passwordKeyword "abcdefg1" = "containsany" ∧ ¬ strongPassword "abcdefg1"
      ∧ passwordKeyword "abcABCdef" = "containsany" ∧ ¬ strongPassword "abcABCdef" := by
  have hreg := firstFailing_password isEmail (UserRegisterRequest name email p)
    ⟨"Password", [("json", "password")]⟩ p
  have hupd := firstFailing_password isEmail (UserUpdatePasswordRequest cur p p)
    ⟨"Password", [("json", "password")]⟩ p
  refine ⟨?_, ?_, ?_, ?_, by decide, by decide, by decide, by unfold strongPassword; decide,
    by decide, by unfold strongPassword; decide, by decide, by unfold strongPassword; decide⟩
  · rw [validateStruct_eq, failingFields_register isEmail name email p hname hemail hvalid,
      ← hreg.1]
    cases firstFailing isEmail (UserRegisterRequest name email p)
      ⟨⟨"Password", [("json", "password")]⟩, passwordRules, p⟩ <;> simp
  · intro hns
    obtain ⟨r, hr, hk⟩ := hreg.2 hns
    rw [validationContext_eq, failingFields_register isEmail name email p hname hemail hvalid,
      hr]
    simp only [List.foldl_cons, List.foldl_nil, setEntry, hk]
  · rw [validateStruct_eq, failingFields_update isEmail cur p p hcur, ← hupd.1]
    cases hff : firstFailing isEmail (UserUpdatePasswordRequest cur p p)
      ⟨⟨"Password", [("json", "password")]⟩, passwordRules, p⟩ with
    | none =>
      have hs : strongPassword p := hupd.1.mp hff
      have hp : p ≠ "" := by
        rintro rfl
        exact not_strongPassword_empty hs
      simp [hp]
    | some r => simp
  · intro hns
    obtain ⟨r, hr, hk⟩ := hupd.2 hns
    rw [validationContext_eq, failingFields_update isEmail cur p p hcur, hr]
    by_cases hp : p = ""
    · refine ⟨_, rfl, ?_, fun h => absurd hp h⟩
      rw [if_pos hp]
      have hne : ("password" = "confirm_password") = False := by decide
      simp [GoMap.get?, setEntry, hk, hne]
    · refine ⟨_, rfl, ?_, fun _ => ?_⟩
      · simp [GoMap.get?, setEntry, hk, hp]
      · simp [setEntry, hk, hp]

/-- Witness of C5: the registration body of `user_register_test.go` with the password
`Abc12`. -/
theorem password_rule_set_witness :
    ("bob" : String) ≠ "" ∧ ("bob@test.com" : String) ≠ "" ∧ ("abcABC123" : String) ≠ ""
      ∧ ¬ strongPassword "Abc12"
      ∧ validationContext (fun _ => true) (UserRegisterRequest "bob" "bob@test.com" "Abc12")
          = some (some ⟨[("password", passwordKeyword "Abc12")]⟩) :=
  ⟨by decide, by decide, by decide, by unfold strongPassword; decide,
    (password_rule_set (fun _ => true) "bob" "bob@test.com" "abcABC123" "Abc12"
      (by decide) (by decide) rfl (by decide)).2.1 (by unfold strongPassword; decide)⟩

/-- C7: in a password-change body whose current password is present and whose password
satisfies the password rule set, a confirmation that is not empty and differs from the
password makes validation fail with the context `{"confirm_password": "eqfield"}`; a
confirmation equal to the password draws no error. -/
theorem confirm_password_eqfield (isEmail : String → Bool) (cur p confirm : String)
    (hcur : cur ≠ "") (hp : strongPassword p) :
    (confirm ≠ "" → confirm ≠ p →
        validateStruct isEmail (UserUpdatePasswordRequest cur p confirm)
          = some (some (GoError.validation [⟨"confirm_password", "eqfield"⟩]))
        ∧ validationContext isEmail (UserUpdatePasswordRequest cur p confirm)
          = some (some ⟨[("confirm_password", "eqfield")]⟩))
      ∧ (confirm = p →
          validateStruct isEmail (UserUpdatePasswordRequest cur p confirm) = some none
          ∧ firstFailing isEmail (UserUpdatePasswordRequest cur p confirm)
              ⟨⟨"ConfirmPassword", [("json", "confirm_password")]⟩,
                [.required, .eqfield "Password"], confirm⟩ = none) := by
  have hpw := (firstFailing_password isEmail (UserUpdatePasswordRequest cur p confirm)
    ⟨"Password", [("json", "password")]⟩ p).1.mpr hp
  have hne : p ≠ "" := by
    rintro rfl
    exact not_strongPassword_empty hp
  constructor
  · intro h0 h1
    rw [validateStruct_eq, validationContext_eq, failingFields_update isEmail cur p confirm hcur,
      hpw]
    simp only [if_neg h0, if_neg h1, List.nil_append, List.foldl_cons, List.foldl_nil, setEntry,
      and_self]
  · intro he
    rw [validateStruct_eq, failingFields_update isEmail cur p confirm hcur, hpw,
      firstFailing_confirm]
    have h0 : confirm ≠ "" := he ▸ hne
    simp only [if_neg h0, if_pos he, List.nil_append, and_self]

/-- Witness of C7: the bodies of `user_update_password_test.go`, confirmation `abcABC124`
against password `abcABC123`. -/
theorem confirm_password_eqfield_witness :
    ("abcABC123" : String) ≠ "" ∧ strongPassword "abcABC123"
      ∧ validationContext (fun _ => true)
          (UserUpdatePasswordRequest "abcABC123" "abcABC123" "abcABC124")
        = some (some ⟨[("confirm_password", "eqfield")]⟩) :=
  ⟨by decide, by unfold strongPassword; decide,
    ((confirm_password_eqfield (fun _ => true) "abcABC123" "abcABC123" "abcABC124"
      (by decide) (by unfold strongPassword; decide)).1 (by decide) (by decide)).2⟩

/-! ## The middleware chain -/

theorem Authenticate_eq (env : Collaborators) (ctx : Option Subject) (req : Request) :
    Authenticate env ctx req
      = match authenticatedSubject env req with
        | none => .error (401, Message.Unauthorized)
        | some subject => .ok (some subject) := by
  unfold Authenticate authenticatedSubject
  cases req.authorization with
  | none => rfl
  | some header =>
    simp only
    cases bearerToken header with
    | none => rfl
    | some token => simp only

/-- The security stages in closed form: the outcome is that of the first failing stage. -/
theorem securityChain_eq (env : Collaborators) (req : Request)
    (hm : req.method ∉ safeMethods) :
    runChain env securityChain none req
      = if csrfMatches req = false then .rejected 403 Message.Forbidden
        else match authenticatedSubject env req with
          | none => .rejected 401 Message.Unauthorized
          | some subject =>
            if env.allow subject (object req) (action req) = true then .handler (some subject)
            else .rejected 403 Message.Forbidden := by
  unfold securityChain
  simp only [runChain, VerifyCsrfToken, Authorize, if_neg hm, Authenticate_eq]
  cases hc : csrfMatches req with
  | false => simp
  | true =>
    cases hs : authenticatedSubject env req with
    | none => simp
    | some subject =>
      cases ha : env.allow subject (object req) (action req) <;> simp [ha]

/-- A rate limiter that admits the request leaves the outcome of a chain as it is,
wherever it stands. -/
theorem runChain_limiter (env : Collaborators) (req : Request)
    (hl : env.limiterAllows req = true) (ys : List Middleware) :
    ∀ (xs : List Middleware) (ctx : Option Subject),
      runChain env (xs ++ RateLimit :: ys) ctx req = runChain env (xs ++ ys) ctx req
  | [], ctx => by
    simp only [List.nil_append, runChain, RateLimit, hl, if_true]
  | m :: ms, ctx => by
    simp only [List.cons_append, runChain]
    cases m env ctx req with
    | error e => rfl
    | ok ctx1 => exact runChain_limiter env req hl ys ms ctx1

theorem protectedChain_eq : protectedChain = chainWithLimiter 1 := rfl

theorem serveProtected_csrf (env : Collaborators) (req : Request)
    (hm : req.method ∉ safeMethods) (hc : csrfMatches req = false) :
    serveProtected env req = .rejected 403 Message.Forbidden := by
  unfold serveProtected protectedChain
  simp [runChain, VerifyCsrfToken, hm, hc]

/-- C6: on a state-changing protected route the response is the error of the first failing
stage in the order CSRF, Authenticate, Authorize, Handler.  A missing or mismatched CSRF
token yields 403 Forbidden whatever the authentication state; with a valid CSRF token a
missing `Authorization` header yields 401 Unauthorized whatever the grants; with a valid
CSRF token and a valid token whose subject lacks the grant the response is 403 Forbidden;
the handler is reached only when all three stages pass.  The chain of 4.1, and every chain
with the rate limiter at another place, has the same outcome for a request the limiter
admits, and rejects a missing or mismatched CSRF token with 403 in any case. -/
theorem chain_first_failing_stage (env : Collaborators) (req : Request)
    (hm : req.method ∉ safeMethods) :
    (csrfMatches req = false →
        runChain env securityChain none req = .rejected 403 Message.Forbidden)
      ∧ (csrfMatches req = true → req.authorization = none →
          runChain env securityChain none req = .rejected 401 Message.Unauthorized)
      ∧ (∀ subject, csrfMatches req = true →
          authenticatedSubject env req = some subject →
          env.allow subject (object req) (action req) = false →
          runChain env securityChain none req = .rejected 403 Message.Forbidden)
      ∧ (∀ ctx, runChain env securityChain none req = .handler ctx ↔
          (csrfMatches req = true
            ∧ ∃ subject, authenticatedSubject env req = some subject
              ∧ env.allow subject (object req) (action req) = true ∧ ctx = some subject))
      ∧ (csrfMatches req = false → serveProtected env req = .rejected 403 Message.Forbidden)
      ∧ (env.limiterAllows req = true →
          serveProtected env req = runChain env securityChain none req
          ∧ ∀ i, runChain env (chainWithLimiter i) none req
              = runChain env securityChain none req) := by
  have hlim : env.limiterAllows req = true →
      ∀ i, runChain env (chainWithLimiter i) none req
        = runChain env securityChain none req := by
    intro hl i
    unfold chainWithLimiter
    rw [runChain_limiter env req hl, List.take_append_drop]
  refine ⟨?_, ?_, ?_, ?_, serveProtected_csrf env req hm, fun hl => ⟨?_, hlim hl⟩⟩
  · intro hc
    rw [securityChain_eq env req hm]
    simp [hc]
  · intro hc ha
    have hs : authenticatedSubject env req = none := by
      unfold authenticatedSubject
      rw [ha]
    rw [securityChain_eq env req hm]
    simp [hc, hs]
  · intro subject hc hs ha
    rw [securityChain_eq env req hm]
    simp [hc, hs, ha]
  · intro ctx
    rw [securityChain_eq env req hm]
    cases hc : csrfMatches req with
    | false => simp
    | true =>
      cases hs : authenticatedSubject env req with
      | none => simp
      | some subject =>
        cases ha : env.allow subject (object req) (action req) with
        | false => simp [ha]
        | true =>
          simp only [ha, Bool.true_eq_false, if_false, if_true, Outcome.handler.injEq,
            true_and, Option.some.injEq]
          constructor
          · intro h
            exact ⟨subject, rfl, ha, h.symm⟩
          · rintro ⟨s2, rfl, _, rfl⟩
            rfl
  · unfold serveProtected
    rw [protectedChain_eq]
    exact hlim hl 1

/-- Witness of C6: the request of `TestWrongAccessToken`, a `POST` to the permission
reload route with a CSRF token and no `Authorization` header. -/
theorem chain_first_failing_stage_witness :
    ("POST" : String) ∉ safeMethods
      ∧ runChain ⟨fun _ => true, fun _ => none, fun _ _ _ => false⟩ securityChain none
          ⟨"POST", "/api/admin/permission/reload", some "token", some "token", none, none⟩
        = .rejected 401 Message.Unauthorized
      ∧ serveProtected ⟨fun _ => true, fun _ => none, fun _ _ _ => false⟩
          ⟨"POST", "/api/admin/permission/reload", some "token", some "token", none, none⟩
        = .rejected 401 Message.Unauthorized :=
  ⟨by decide,
    (chain_first_failing_stage ⟨fun _ => true, fun _ => none, fun _ _ _ => false⟩
      ⟨"POST", "/api/admin/permission/reload", some "token", some "token", none, none⟩
      (by decide)).2.1 (by decide) rfl,
    by decide⟩

end GoBackend
